import Mathlib

/-!
Verification of the Turno-Farmacia shift-scheduling application (src/app.py).

The application is a Streamlit UI over a relational store.  We give a shallow
embedding: each table is a list of rows, each SQL query/command of app.py is a
Lean function over a `DB` value.  Left joins on uniquely-keyed tables are
modelled with `List.find?`; `exists (select 1 …)` subqueries with `List.any`;
`insert … on conflict` upserts follow the source branch by branch.  SQL dates
are a `Date` structure ordered through the proleptic-Gregorian ordinal (the
same calendar Python's `datetime.date` uses); SQL `time` values are minutes
since midnight.  Result-set ordering (`order by full_name`) is not modelled:
every property proved below is order-independent membership or aggregation.
-/

namespace Farmacia

/-- Calendar date, as Python's `datetime.date` / SQL `date`. -/
structure Date where
  year : Nat
  month : Nat
  day : Nat
  deriving DecidableEq, Repr

/-- Gregorian leap-year rule (as Python's `calendar.isleap`). -/
def isLeap (y : Nat) : Bool := (y % 4 == 0 && y % 100 != 0) || (y % 400 == 0)

/-- Cumulative day counts before each month in a non-leap year. -/
def cumDays : List Nat := [0, 31, 59, 90, 120, 151, 181, 212, 243, 273, 304, 334]

/-- Days in year `y` strictly before month `m`. -/
def daysBeforeMonth (y m : Nat) : Nat :=
  cumDays.getD (m - 1) 0 + (if 2 < m && isLeap y then 1 else 0)

/-- Proleptic-Gregorian ordinal of a date (0001-01-01 has ordinal 1), as
Python's `date.toordinal`. -/
def toOrdinal (d : Date) : Nat :=
  365 * (d.year - 1) + (d.year - 1) / 4 - (d.year - 1) / 100 + (d.year - 1) / 400
    + daysBeforeMonth d.year d.month + d.day

/-- ISO weekday, 1 = Monday … 7 = Sunday, as Python's `date.isoweekday()`
(0001-01-01 was a Monday). -/
def isoWeekday (d : Date) : Nat := (toOrdinal d - 1) % 7 + 1

/-- SQL `<=` on dates. -/
def dateLe (a b : Date) : Bool := Nat.ble (toOrdinal a) (toOrdinal b)

/-- SQL `<` on dates. -/
def dateLt (a b : Date) : Bool := Nat.blt (toOrdinal a) (toOrdinal b)

/-- A row of table `employees`. -/
structure Employee where
  id : String
  full_name : String
  role : String
  active : Bool
  deriving DecidableEq, Repr

/-- A row of table `shift_types` (the columns the studied queries read). -/
structure ShiftType where
  id : String
  code : String
  name : String
  start_time : Nat
  end_time : Nat
  required_staff : Nat
  active : Bool
  deriving DecidableEq, Repr

/-- A row of table `employee_weekly_availability`
(unique on (employee_id, iso_dow, shift_type_id)). -/
structure WeeklyRow where
  employee_id : String
  iso_dow : Nat
  shift_type_id : String
  available : Bool
  deriving DecidableEq, Repr

/-- A row of table `employee_availability_overrides`
(unique on (employee_id, work_date, shift_type_id)). -/
structure OverrideRow where
  employee_id : String
  work_date : Date
  shift_type_id : String
  available : Bool
  reason : String
  deriving DecidableEq, Repr

/-- A row of table `employee_time_off`; `shift_type_id` is nullable. -/
structure TimeOffRow where
  employee_id : String
  start_date : Date
  end_date : Date
  shift_type_id : Option String
  deriving DecidableEq, Repr

/-- A row of table `shift_assignments`
(unique on (work_date, shift_type_id, employee_id)). -/
structure AssignmentRow where
  work_date : Date
  iso_dow : Nat
  shift_type_id : String
  employee_id : String
  active : Bool
  deriving DecidableEq, Repr

/-- A row of table `month_closures` (unique on month_start). -/
structure ClosureRow where
  month_start : Date
  closed_by : String
  deriving DecidableEq, Repr

/-- The relational store: one list per table of app.py. -/
structure DB where
  employees : List Employee
  shift_types : List ShiftType
  weekly : List WeeklyRow
  overrides : List OverrideRow
  time_off : List TimeOffRow
  assignments : List AssignmentRow
  month_closures : List ClosureRow
  deriving DecidableEq, Repr

/-- The `exists (select 1 from employee_time_off t where …)` subquery shared by
`get_effective_availability_all` and `available_employees_for_date_shift`:
a time-off row of the employee covers the date (`between`) and its shift is
null or equals the requested shift. -/
def hasTimeOff (toff : List TimeOffRow) (emp : String) (dt : Date) (shift : String) : Bool :=
  toff.any fun t =>
    t.employee_id == emp && dateLe t.start_date dt && dateLe dt t.end_date &&
      (t.shift_type_id.isNone || t.shift_type_id == some shift)

/-- The `left join employee_availability_overrides o on o.employee_id=e.id and
o.work_date=:dt and o.shift_type_id=:shift` lookup: the unique matching row's
`available`, if any. -/
def overrideLookup (ovs : List OverrideRow) (emp : String) (dt : Date) (shift : String) :
    Option Bool :=
  (ovs.find? fun o => o.employee_id == emp && o.work_date == dt && o.shift_type_id == shift).map
    (·.available)

/-- The `left join employee_weekly_availability w on w.employee_id=e.id and
w.iso_dow=:dow and w.shift_type_id=:shift` lookup. -/
def weeklyLookup (ws : List WeeklyRow) (emp : String) (dow : Nat) (shift : String) :
    Option Bool :=
  (ws.find? fun w => w.employee_id == emp && w.iso_dow == dow && w.shift_type_id == shift).map
    (·.available)

/-- The SQL expression `coalesce(o.available, w.available, true)`. -/
def coalesceAvail (ovs : List OverrideRow) (ws : List WeeklyRow) (emp : String) (dt : Date)
    (dow : Nat) (shift : String) : Bool :=
  (overrideLookup ovs emp dt shift).getD ((weeklyLookup ws emp dow shift).getD true)

/-- A result row of `get_effective_availability_all` (app.py lines 37-57). -/
structure EffAvailRow where
  id : String
  full_name : String
  is_available : Bool
  is_time_off : Bool
  deriving DecidableEq, Repr

/-- `get_effective_availability_all` (app.py lines 37-57): every active
employee with `is_available = coalesce(o.available, w.available, true)` and
`is_time_off = exists(time-off covering the date and shift)`. -/
def get_effective_availability_all (db : DB) (work_date : Date) (iso_dow : Nat)
    (shift_id : String) : List EffAvailRow :=
  (db.employees.filter (·.active)).map fun e =>
    { id := e.id
      full_name := e.full_name
      is_available := coalesceAvail db.overrides db.weekly e.id work_date iso_dow shift_id
      is_time_off := hasTimeOff db.time_off e.id work_date shift_id }

/-- `available_employees_for_date_shift` (app.py lines 92-110): active
employees with no covering time-off and
`coalesce(o.available, w.available, true) = true`. -/
def available_employees_for_date_shift (db : DB) (work_date : Date) (iso_dow : Nat)
    (shift_id : String) : List Employee :=
  db.employees.filter fun e =>
    e.active && !hasTimeOff db.time_off e.id work_date shift_id &&
      coalesceAvail db.overrides db.weekly e.id work_date iso_dow shift_id

/-- `month_range` (app.py lines 59-65). -/
def month_range (d : Date) : Date × Date :=
  let start : Date := { d with day := 1 }
  if start.month == 12 then (start, ⟨start.year + 1, 1, 1⟩)
  else (start, ⟨start.year, start.month + 1, 1⟩)

/-- `month_start` (app.py lines 128-129). -/
def month_start (d : Date) : Date := { d with day := 1 }

/-- `is_month_closed` (app.py lines 137-139): a `month_closures` row with this
month_start exists. -/
def is_month_closed (db : DB) (ms : Date) : Bool :=
  db.month_closures.any (·.month_start == ms)

/-- `close_month` (app.py lines 141-146): `insert … on conflict (month_start)
do nothing`. -/
def close_month (db : DB) (ms : Date) (closed_by : String) : DB :=
  if db.month_closures.any (·.month_start == ms) then db
  else { db with month_closures := db.month_closures ++ [⟨ms, closed_by⟩] }

/-- The `where work_date=:dt and shift_type_id=:shift` slot filter of
`apply_assignments`. -/
def slotKey (dt : Date) (shift : String) (a : AssignmentRow) : Bool :=
  a.work_date == dt && a.shift_type_id == shift

/-- The `on conflict (work_date, shift_type_id, employee_id)` key. -/
def assignKey (dt : Date) (shift emp : String) (a : AssignmentRow) : Bool :=
  slotKey dt shift a && a.employee_id == emp

/-- One `insert into shift_assignments … values (:dt,:dow,:shift,:emp,true)
on conflict (work_date, shift_type_id, employee_id) do update set active=true`
of `apply_assignments`: if a row with the conflict key exists it is set active,
otherwise a fresh active row is inserted. -/
def upsertAssignment (rows : List AssignmentRow) (dt : Date) (dow : Nat) (shift emp : String) :
    List AssignmentRow :=
  if rows.any (assignKey dt shift emp) then
    rows.map fun a => if assignKey dt shift emp a then { a with active := true } else a
  else
    rows ++ [{ work_date := dt, iso_dow := dow, shift_type_id := shift,
               employee_id := emp, active := true }]

/-- The `select employee_id … where work_date=:dt and shift_type_id=:shift`
read of `apply_assignments` (its `existing` / `existing_ids`). -/
def existingIds (rows : List AssignmentRow) (dt : Date) (s : String) : List String :=
  (rows.filter (slotKey dt s)).map (·.employee_id)

/-- The first loop of `apply_assignments`: one upsert per selected employee.
Python iterates a set; the upserts are independent per employee, so the set
iteration is modelled by folding the selection list. -/
def upsertAll (rows : List AssignmentRow) (dt : Date) (dow : Nat) (s : String)
    (selected : List String) : List AssignmentRow :=
  selected.foldl (fun r emp => upsertAssignment r dt dow s emp) rows

/-- The guarded bulk `update shift_assignments set active=false where
work_date=:dt and shift_type_id=:shift and employee_id = any(:arr)` of
`apply_assignments` (run only when `to_deactivate` is non-empty). -/
def deactivateMissing (rows : List AssignmentRow) (dt : Date) (s : String)
    (to_deactivate : List String) : List AssignmentRow :=
  if to_deactivate.isEmpty then rows
  else rows.map fun a =>
    if slotKey dt s a && to_deactivate.contains a.employee_id then { a with active := false }
    else a

/-- `apply_assignments` (app.py lines 148-175).  `existing_ids` is read before
any write; each selected employee is upserted active; the employees in
`existing - selected` are bulk-deactivated.  Nothing is deleted. -/
def apply_assignments (db : DB) (work_date : Date) (iso_dow : Nat) (shift_id : String)
    (selected_employee_ids : List String) : DB :=
  { db with assignments :=
      (deactivateMissing
        (upsertAll db.assignments work_date iso_dow shift_id selected_employee_ids)
        work_date shift_id
        ((existingIds db.assignments work_date shift_id).filter
          fun e => !selected_employee_ids.contains e)) }

/-- A joined result row of the tab-3 dashboard query (app.py lines 462-475). -/
structure DashRow where
  full_name : String
  turno : String
  start_time : Nat
  end_time : Nat
  work_date : Date
  deriving DecidableEq, Repr

/-- The tab-3 dashboard query (app.py lines 462-475): active assignments with
`work_date` in the half-open range `[start, end)`, inner-joined with employees
and shift_types on their ids. -/
def dashboard_rows (db : DB) (start stop : Date) : List DashRow :=
  db.assignments.filterMap fun a =>
    if a.active && dateLe start a.work_date && dateLt a.work_date stop then
      match db.employees.find? (·.id == a.employee_id),
            db.shift_types.find? (·.id == a.shift_type_id) with
      | some e, some s =>
          some { full_name := e.full_name, turno := s.name,
                 start_time := s.start_time, end_time := s.end_time, work_date := a.work_date }
      | _, _ => none
    else none

/-- Hours of one dashboard row (app.py lines 483-485): the times, in minutes
since midnight, become timestamps whose difference in seconds is divided by
3600. -/
def shiftHours (r : DashRow) : ℚ :=
  (((r.end_time : ℤ) - (r.start_time : ℤ)) * 60 : ℚ) / 3600

/-- The tab-3 `groupby("full_name").agg(turnos=count, horas=sum)` (app.py
lines 487-490), read off for one employee name: assignment count and total
hours. -/
def dashboard_summary (db : DB) (start stop : Date) (name : String) : Nat × ℚ :=
  (((dashboard_rows db start stop).filter (·.full_name == name)).length,
   (((dashboard_rows db start stop).filter (·.full_name == name)).map shiftHours).sum)

/-- Python's `str.strip()`: drop leading and trailing whitespace. -/
def stripName (s : String) : String :=
  ⟨((s.data.dropWhile Char.isWhitespace).reverse.dropWhile Char.isWhitespace).reverse⟩

/-- The tab-1 add-person form submit (app.py lines 189-198): Python's
`if ok and name.strip():` inserts only when the submit flag is set and the
stripped name is non-empty (truthy); `new_id` stands for the id the database
generates for the inserted row. -/
def add_person_submit (db : DB) (new_id : String) (ok : Bool) (name role : String) : DB :=
  if ok && stripName name != "" then
    { db with employees := db.employees ++ [⟨new_id, stripName name, role, true⟩] }
  else db

/-- Two assignment rows agree on every column except possibly `active`: the
row's identity (its unique key plus the weekday denormalisation) survives. -/
def sameKeyFields (a b : AssignmentRow) : Prop :=
  a.work_date = b.work_date ∧ a.iso_dow = b.iso_dow ∧
    a.shift_type_id = b.shift_type_id ∧ a.employee_id = b.employee_id

/-- Scenario for C5, idempotence-free part: an empty assignment table. -/
def dbC5 : DB :=
  { employees := [⟨"A", "Ana", "empleada", true⟩, ⟨"B", "Bea", "empleada", true⟩]
    shift_types := []
    weekly := []
    overrides := []
    time_off := []
    assignments := []
    month_closures := [] }

/-- Scenario for C5's witness: one stored assignment row. -/
def dbC5w : DB :=
  { employees := [⟨"A", "Ana", "empleada", true⟩]
    shift_types := []
    weekly := []
    overrides := []
    time_off := []
    assignments := [⟨⟨2024, 6, 3⟩, 1, "sh1", "A", true⟩]
    month_closures := [] }

/-- Scenario for C1: Ana has an override `available=true` and a weekly
`available=true` row, but a blanket time-off covering 2024-06-03. -/
def dbC1 : DB :=
  { employees := [⟨"e1", "Ana", "empleada", true⟩]
    shift_types := []
    weekly := [⟨"e1", 1, "m", true⟩]
    overrides := [⟨"e1", ⟨2024, 6, 3⟩, "m", true, ""⟩]
    time_off := [⟨"e1", ⟨2024, 6, 1⟩, ⟨2024, 6, 10⟩, none⟩]
    assignments := []
    month_closures := [] }

/-- Scenario for C2 (the spec's "Ana" example): weekly availability `false`
for (Monday, shift "m"), an override `available=true` on Monday 2024-06-03,
no time-off. -/
def dbC2 : DB :=
  { employees := [⟨"e1", "Ana", "empleada", true⟩]
    shift_types := []
    weekly := [⟨"e1", 1, "m", false⟩]
    overrides := [⟨"e1", ⟨2024, 6, 3⟩, "m", true, ""⟩]
    time_off := []
    assignments := []
    month_closures := [] }

/-- Scenario for C3, weekly row present: weekly says unavailable for Monday,
no override, no time-off. -/
def dbC3a : DB :=
  { employees := [⟨"e1", "Ana", "empleada", true⟩]
    shift_types := []
    weekly := [⟨"e1", 1, "m", false⟩]
    overrides := []
    time_off := []
    assignments := []
    month_closures := [] }

/-- Scenario for C3, no weekly row at all. -/
def dbC3b : DB :=
  { employees := [⟨"e1", "Ana", "empleada", true⟩]
    shift_types := []
    weekly := []
    overrides := []
    time_off := []
    assignments := []
    month_closures := [] }

/-- Scenario for C10: no override, no weekly row, a blanket time-off covering
the date — so `coalesce` yields `true` while the time-off flag is set. -/
def dbC10 : DB :=
  { employees := [⟨"e1", "Ana", "empleada", true⟩]
    shift_types := []
    weekly := []
    overrides := []
    time_off := [⟨"e1", ⟨2024, 6, 1⟩, ⟨2024, 6, 10⟩, none⟩]
    assignments := []
    month_closures := [] }

/-- Scenario for C8: June 2024 already closed by "gerente". -/
def dbC8 : DB :=
  { employees := []
    shift_types := []
    weekly := []
    overrides := []
    time_off := []
    assignments := []
    month_closures := [⟨⟨2024, 6, 1⟩, "gerente"⟩] }

/-- Scenario for C9: a store with one existing employee. -/
def dbC9 : DB :=
  { employees := [⟨"e1", "Ana", "empleada", true⟩]
    shift_types := []
    weekly := []
    overrides := []
    time_off := []
    assignments := []
    month_closures := [] }

/-- The spec's example shift: 09:00–13:00 (in minutes since midnight),
4 hours long. -/
def morningShift : ShiftType := ⟨"sh1", "M", "Mañana", 540, 780, 2, true⟩

/-- Scenario for C6, one active June assignment of the 09:00–13:00 shift —
plus an active assignment on 2024-07-01, the exclusive end of the range,
which must not count. -/
def dbC6a : DB :=
  { employees := [⟨"e1", "Ana", "empleada", true⟩]
    shift_types := [morningShift]
    weekly := []
    overrides := []
    time_off := []
    assignments := [⟨⟨2024, 6, 3⟩, 1, "sh1", "e1", true⟩,
                    ⟨⟨2024, 7, 1⟩, 1, "sh1", "e1", true⟩]
    month_closures := [] }

/-- Scenario for C6, two active June assignments of the same shift (an
inactive third row must not count). -/
def dbC6b : DB :=
  { employees := [⟨"e1", "Ana", "empleada", true⟩]
    shift_types := [morningShift]
    weekly := []
    overrides := []
    time_off := []
    assignments := [⟨⟨2024, 6, 3⟩, 1, "sh1", "e1", true⟩,
                    ⟨⟨2024, 6, 10⟩, 1, "sh1", "e1", true⟩,
                    ⟨⟨2024, 6, 17⟩, 1, "sh1", "e1", false⟩]
    month_closures := [] }

/-! ## Claims about the availability queries -/

/-- C1: for every employee, date and shift, if a time-off record covers the
date and its shift is null or equal to the requested one, the employee is
excluded from `available_employees_for_date_shift` — whatever the override
and weekly tables (quantified inside `db`) hold, and for any weekday value. -/
theorem timeoff_excludes (db : DB) (dt : Date) (dow : Nat) (s emp : String)
    (h : hasTimeOff db.time_off emp dt s = true) :
    ∀ e ∈ available_employees_for_date_shift db dt dow s, e.id ≠ emp := by
  intro e he heq
  rw [available_employees_for_date_shift, List.mem_filter] at he
  have hc := he.2
  rw [heq, h] at hc
  simp at hc

/-- Witness for C1 at the concrete scenario `dbC1`. -/
theorem timeoff_excludes_witness :
    hasTimeOff dbC1.time_off "e1" ⟨2024, 6, 3⟩ "m" = true ∧
    ∀ e ∈ available_employees_for_date_shift dbC1 ⟨2024, 6, 3⟩ 1 "m", e.id ≠ "e1" :=
  ⟨by decide, timeoff_excludes dbC1 ⟨2024, 6, 3⟩ 1 "m" "e1" (by decide)⟩

/-- C2: with no covering time-off, an override row for exactly
(employee, date, shift) decides effective availability (membership in
`available_employees_for_date_shift` at the date's ISO weekday), whatever
weekly row exists for (employee, weekday(date), shift). -/
theorem override_wins (db : DB) (dt : Date) (s : String) (e : Employee) (b : Bool)
    (he : e ∈ db.employees) (hact : e.active = true)
    (ht : hasTimeOff db.time_off e.id dt s = false)
    (ho : overrideLookup db.overrides e.id dt s = some b) :
    e ∈ available_employees_for_date_shift db dt (isoWeekday dt) s ↔ b = true := by
  rw [available_employees_for_date_shift, List.mem_filter]
  simp [coalesceAvail, ho, ht, hact, he]

/-- Witness for C2: in `dbC2` the weekly row says unavailable, yet Ana is in
the available list for Monday 2024-06-03 (note `isoWeekday ⟨2024,6,3⟩ = 1`). -/
theorem override_wins_witness :
    weeklyLookup dbC2.weekly "e1" (isoWeekday ⟨2024, 6, 3⟩) "m" = some false ∧
    (⟨"e1", "Ana", "empleada", true⟩ : Employee) ∈
      available_employees_for_date_shift dbC2 ⟨2024, 6, 3⟩ (isoWeekday ⟨2024, 6, 3⟩) "m" :=
  ⟨by decide,
   (override_wins dbC2 ⟨2024, 6, 3⟩ "m" ⟨"e1", "Ana", "empleada", true⟩ true
      (by decide) rfl (by decide) (by decide)).mpr rfl⟩

/-- C3: with no covering time-off and no override row, effective availability
(membership in `available_employees_for_date_shift` at the date's ISO
weekday) equals the weekly row's `available` when that row exists, and
defaults to available when it does not. -/
theorem weekly_or_default (db : DB) (dt : Date) (s : String) (e : Employee)
    (he : e ∈ db.employees) (hact : e.active = true)
    (ht : hasTimeOff db.time_off e.id dt s = false)
    (ho : overrideLookup db.overrides e.id dt s = none) :
    (∀ b, weeklyLookup db.weekly e.id (isoWeekday dt) s = some b →
      (e ∈ available_employees_for_date_shift db dt (isoWeekday dt) s ↔ b = true)) ∧
    (weeklyLookup db.weekly e.id (isoWeekday dt) s = none →
      e ∈ available_employees_for_date_shift db dt (isoWeekday dt) s) := by
  constructor
  · intro b hw
    rw [available_employees_for_date_shift, List.mem_filter]
    simp [coalesceAvail, ho, hw, ht, hact, he]
  · intro hw
    rw [available_employees_for_date_shift, List.mem_filter]
    simp [coalesceAvail, ho, hw, ht, hact, he]

/-- Witness for C3: with a weekly `available=false` row the employee is
available iff `false = true` (i.e. not available); with no weekly row the
default makes the employee available. -/
theorem weekly_or_default_witness :
    ((⟨"e1", "Ana", "empleada", true⟩ : Employee) ∈
        available_employees_for_date_shift dbC3a ⟨2024, 6, 3⟩ (isoWeekday ⟨2024, 6, 3⟩) "m" ↔
      false = true) ∧
    (⟨"e1", "Ana", "empleada", true⟩ : Employee) ∈
      available_employees_for_date_shift dbC3b ⟨2024, 6, 3⟩ (isoWeekday ⟨2024, 6, 3⟩) "m" :=
  ⟨(weekly_or_default dbC3a ⟨2024, 6, 3⟩ "m" ⟨"e1", "Ana", "empleada", true⟩
      (by decide) rfl (by decide) (by decide)).1 false (by decide),
   (weekly_or_default dbC3b ⟨2024, 6, 3⟩ "m" ⟨"e1", "Ana", "empleada", true⟩
      (by decide) rfl (by decide) (by decide)).2 (by decide)⟩

/-- C10: the `is_available` column of `get_effective_availability_all` is
`coalesce(override, weekly, true)` and never consults the time-off table
(replacing that table changes no `is_available` value); in particular a row
can carry `is_available = true` and `is_time_off = true` at once. -/
theorem is_available_ignores_timeoff :
    (∀ (db : DB) (t : List TimeOffRow) (dt : Date) (dow : Nat) (s : String),
      (get_effective_availability_all { db with time_off := t } dt dow s).map (·.is_available) =
        (get_effective_availability_all db dt dow s).map (·.is_available)) ∧
    get_effective_availability_all dbC10 ⟨2024, 6, 3⟩ 1 "m" =
      [{ id := "e1", full_name := "Ana", is_available := true, is_time_off := true }] := by
  constructor
  · intro db t dt dow s
    rw [get_effective_availability_all, get_effective_availability_all,
      List.map_map, List.map_map]
    rfl
  · decide

/-! ## Claims about assignment bookkeeping, closure and the dashboard -/

/-- C7: `apply_assignments` neither reads nor writes `month_closures`: its
assignment mutations are identical under any closure-table contents (closed
month or not), it leaves the closure table untouched, and therefore preserves
`is_month_closed` for every month. -/
theorem closure_advisory (db : DB) (c : List ClosureRow) (dt : Date) (dow : Nat)
    (s : String) (X : List String) :
    (apply_assignments { db with month_closures := c } dt dow s X).assignments =
      (apply_assignments db dt dow s X).assignments ∧
    (apply_assignments db dt dow s X).month_closures = db.month_closures ∧
    ∀ m : Date, is_month_closed (apply_assignments db dt dow s X) m = is_month_closed db m :=
  ⟨rfl, rfl, fun _ => rfl⟩

/-- C8: `close_month` on a month that already has a closure record is a
no-op — the stored record (its `closed_by` included) survives unchanged and
nothing is inserted. -/
theorem close_month_idem (db : DB) (ms : Date) (who : String)
    (h : ∃ c ∈ db.month_closures, c.month_start = ms) :
    close_month db ms who = db := by
  obtain ⟨c, hc, hms⟩ := h
  have hany : db.month_closures.any (·.month_start == ms) = true :=
    List.any_eq_true.mpr ⟨c, hc, by simp [hms]⟩
  rw [close_month, if_pos hany]

/-- Witness for C8: re-closing June 2024 with a different `closed_by` leaves
the store — including the original record — unchanged. -/
theorem close_month_idem_witness : close_month dbC8 ⟨2024, 6, 1⟩ "otra" = dbC8 :=
  close_month_idem dbC8 ⟨2024, 6, 1⟩ "otra" ⟨⟨⟨2024, 6, 1⟩, "gerente"⟩, by decide, rfl⟩

/-- C9: the add-person submit with a name that strips to empty changes
nothing (no row inserted, no error — the function is total); a row is
inserted exactly when the stripped name is non-empty. -/
theorem add_person_blank_noop (db : DB) (nid : String) (ok : Bool) (name role : String) :
    (stripName name = "" → add_person_submit db nid ok name role = db) ∧
    (ok = true → stripName name ≠ "" →
      (add_person_submit db nid ok name role).employees =
        db.employees ++ [⟨nid, stripName name, role, true⟩]) := by
  constructor
  · intro h
    have hc : (ok && (stripName name != "")) = false := by simp [h]
    rw [add_person_submit, hc]
    simp
  · intro hok hne
    have hc : (ok && (stripName name != "")) = true := by simp [hok, hne]
    rw [add_person_submit, hc]
    simp

/-- Witness for C9: a whitespace-only name no-ops; a padded real name inserts
its stripped form. -/
theorem add_person_blank_noop_witness :
    add_person_submit dbC9 "e2" true "   " "empleada" = dbC9 ∧
    (add_person_submit dbC9 "e2" true " Eva " "empleada").employees =
      dbC9.employees ++ [⟨"e2", stripName " Eva ", "empleada", true⟩] :=
  ⟨(add_person_blank_noop dbC9 "e2" true "   " "empleada").1 (by decide),
   (add_person_blank_noop dbC9 "e2" true " Eva " "empleada").2 rfl (by decide)⟩

/-- C6: over the half-open June 2024 range produced by `month_range`, one
active 09:00–13:00 assignment yields (count 1, 4 hours) and two yield
(count 2, 8 hours); assignments on the range's end date or inactive rows do
not count. -/
theorem dashboard_hours_example :
    dashboard_summary dbC6a (month_range ⟨2024, 6, 3⟩).1 (month_range ⟨2024, 6, 3⟩).2 "Ana" =
      (1, 4) ∧
    dashboard_summary dbC6b (month_range ⟨2024, 6, 3⟩).1 (month_range ⟨2024, 6, 3⟩).2 "Ana" =
      (2, 8) := by
  have ra : (dashboard_rows dbC6a (month_range ⟨2024, 6, 3⟩).1
        (month_range ⟨2024, 6, 3⟩).2).filter (·.full_name == "Ana") =
      [⟨"Ana", "Mañana", 540, 780, ⟨2024, 6, 3⟩⟩] := rfl
  have rb : (dashboard_rows dbC6b (month_range ⟨2024, 6, 3⟩).1
        (month_range ⟨2024, 6, 3⟩).2).filter (·.full_name == "Ana") =
      [⟨"Ana", "Mañana", 540, 780, ⟨2024, 6, 3⟩⟩, ⟨"Ana", "Mañana", 540, 780, ⟨2024, 6, 10⟩⟩] :=
    rfl
  constructor
  · rw [dashboard_summary, ra]
    norm_num [shiftHours]
  · rw [dashboard_summary, rb]
    norm_num [shiftHours]

/-! ## Helper lemmas for the assignment bookkeeper -/

theorem active_update_self (a : AssignmentRow) (b : Bool) (h : a.active = b) :
    ({ a with active := b } : AssignmentRow) = a := by
  cases a
  subst h
  rfl

theorem map_id_of_mem {α : Type} (l : List α) (f : α → α) (h : ∀ a ∈ l, f a = a) :
    l.map f = l := by
  induction l with
  | nil => rfl
  | cons x xs ih =>
      rw [List.map_cons, h x (List.mem_cons_self x xs),
        ih fun a ha => h a (List.mem_cons_of_mem x ha)]

theorem contains_eq_true_of_mem {l : List String} {x : String} (h : x ∈ l) :
    l.contains x = true := List.elem_iff.mpr h

theorem mem_of_contains_eq_true {l : List String} {x : String} (h : l.contains x = true) :
    x ∈ l := List.elem_iff.mp h

theorem contains_eq_false_of_not_mem {l : List String} {x : String} (h : x ∉ l) :
    l.contains x = false := by
  by_cases hc : l.contains x = true
  · exact absurd (List.elem_iff.mp hc) h
  · exact Bool.eq_false_iff.mpr hc

theorem not_mem_of_contains_eq_false {l : List String} {x : String}
    (h : l.contains x = false) : x ∉ l := fun hm => by
  rw [contains_eq_true_of_mem hm] at h
  cases h

theorem assignKey_eq_true (dt : Date) (s emp : String) (a : AssignmentRow) :
    assignKey dt s emp a = true ↔
      a.work_date = dt ∧ a.shift_type_id = s ∧ a.employee_id = emp := by
  simp [assignKey, slotKey, and_assoc]

theorem slotKey_eq_true (dt : Date) (s : String) (a : AssignmentRow) :
    slotKey dt s a = true ↔ a.work_date = dt ∧ a.shift_type_id = s := by
  simp [slotKey]

theorem assignKey_active_update (dt : Date) (s emp : String) (a : AssignmentRow) (b : Bool) :
    assignKey dt s emp { a with active := b } = assignKey dt s emp a := rfl

theorem sameKeyFields_refl (a : AssignmentRow) : sameKeyFields a a := ⟨rfl, rfl, rfl, rfl⟩

theorem sameKeyFields_trans {a b c : AssignmentRow} (h1 : sameKeyFields a b)
    (h2 : sameKeyFields b c) : sameKeyFields a c :=
  ⟨h1.1.trans h2.1, h1.2.1.trans h2.2.1, h1.2.2.1.trans h2.2.2.1, h1.2.2.2.trans h2.2.2.2⟩

theorem upsert_key_exists (rows : List AssignmentRow) (dt : Date) (dow : Nat) (s emp : String) :
    ∃ a ∈ upsertAssignment rows dt dow s emp, assignKey dt s emp a = true := by
  rw [upsertAssignment]
  by_cases h : rows.any (assignKey dt s emp) = true
  · rw [if_pos h]
    obtain ⟨b, hb, hkey⟩ := List.any_eq_true.mp h
    refine ⟨_, List.mem_map_of_mem _ hb, ?_⟩
    rw [if_pos hkey, assignKey_active_update]
    exact hkey
  · rw [if_neg h]
    refine ⟨⟨dt, dow, s, emp, true⟩, by simp, ?_⟩
    simp [assignKey, slotKey]

theorem upsert_key_active (rows : List AssignmentRow) (dt : Date) (dow : Nat) (s emp : String) :
    ∀ a ∈ upsertAssignment rows dt dow s emp, assignKey dt s emp a = true → a.active = true := by
  intro a ha hkey
  rw [upsertAssignment] at ha
  by_cases h : rows.any (assignKey dt s emp) = true
  · rw [if_pos h] at ha
    obtain ⟨b, hb, hfb⟩ := List.mem_map.mp ha
    by_cases hkb : assignKey dt s emp b = true
    · rw [if_pos hkb] at hfb
      rw [← hfb]
    · rw [if_neg hkb] at hfb
      subst hfb
      exact absurd hkey hkb
  · rw [if_neg h] at ha
    rcases List.mem_append.mp ha with h1 | h2
    · rw [Bool.not_eq_true] at h
      exact absurd hkey (List.any_eq_false.mp h a h1)
    · rw [List.mem_singleton] at h2
      subst h2
      rfl

theorem upsert_preserves_key_active (rows : List AssignmentRow) (dt : Date) (dow : Nat)
    (s emp e2 : String)
    (h : ∀ a ∈ rows, assignKey dt s e2 a = true → a.active = true) :
    ∀ a ∈ upsertAssignment rows dt dow s emp, assignKey dt s e2 a = true → a.active = true := by
  intro a ha hkey
  rw [upsertAssignment] at ha
  by_cases hc : rows.any (assignKey dt s emp) = true
  · rw [if_pos hc] at ha
    obtain ⟨b, hb, hfb⟩ := List.mem_map.mp ha
    by_cases hkb : assignKey dt s emp b = true
    · rw [if_pos hkb] at hfb
      rw [← hfb]
    · rw [if_neg hkb] at hfb
      subst hfb
      exact h _ hb hkey
  · rw [if_neg hc] at ha
    rcases List.mem_append.mp ha with h1 | h2
    · exact h a h1 hkey
    · rw [List.mem_singleton] at h2
      subst h2
      rfl

theorem upsert_preserves_key_exists (rows : List AssignmentRow) (dt : Date) (dow : Nat)
    (s emp e2 : String) (h : ∃ a ∈ rows, assignKey dt s e2 a = true) :
    ∃ a ∈ upsertAssignment rows dt dow s emp, assignKey dt s e2 a = true := by
  obtain ⟨b, hb, hkey⟩ := h
  rw [upsertAssignment]
  by_cases hc : rows.any (assignKey dt s emp) = true
  · rw [if_pos hc]
    refine ⟨_, List.mem_map_of_mem _ hb, ?_⟩
    by_cases hkb : assignKey dt s emp b = true
    · rw [if_pos hkb, assignKey_active_update]
      exact hkey
    · rw [if_neg hkb]
      exact hkey
  · rw [if_neg hc]
    exact ⟨b, List.mem_append_left _ hb, hkey⟩

theorem upsert_frame (rows : List AssignmentRow) (dt : Date) (dow : Nat) (s emp : String) :
    ∀ b ∈ rows, ∃ a ∈ upsertAssignment rows dt dow s emp, sameKeyFields a b := by
  intro b hb
  rw [upsertAssignment]
  by_cases hc : rows.any (assignKey dt s emp) = true
  · rw [if_pos hc]
    refine ⟨_, List.mem_map_of_mem _ hb, ?_⟩
    by_cases hkb : assignKey dt s emp b = true
    · rw [if_pos hkb]
      exact ⟨rfl, rfl, rfl, rfl⟩
    · rw [if_neg hkb]
      exact sameKeyFields_refl b
  · rw [if_neg hc]
    exact ⟨b, List.mem_append_left _ hb, sameKeyFields_refl b⟩

theorem upsert_origin (rows : List AssignmentRow) (dt : Date) (dow : Nat) (s emp : String) :
    ∀ a ∈ upsertAssignment rows dt dow s emp,
      (∃ b ∈ rows, sameKeyFields a b) ∨
        (a.work_date = dt ∧ a.shift_type_id = s ∧ a.employee_id = emp) := by
  intro a ha
  rw [upsertAssignment] at ha
  by_cases hc : rows.any (assignKey dt s emp) = true
  · rw [if_pos hc] at ha
    obtain ⟨b, hb, hfb⟩ := List.mem_map.mp ha
    left
    refine ⟨b, hb, ?_⟩
    by_cases hkb : assignKey dt s emp b = true
    · rw [if_pos hkb] at hfb
      rw [← hfb]
      exact ⟨rfl, rfl, rfl, rfl⟩
    · rw [if_neg hkb] at hfb
      rw [← hfb]
      exact sameKeyFields_refl b
  · rw [if_neg hc] at ha
    rcases List.mem_append.mp ha with h1 | h2
    · left
      exact ⟨a, h1, sameKeyFields_refl a⟩
    · right
      rw [List.mem_singleton] at h2
      subst h2
      exact ⟨rfl, rfl, rfl⟩

theorem upsert_eq_self (rows : List AssignmentRow) (dt : Date) (dow : Nat) (s emp : String)
    (hex : ∃ a ∈ rows, assignKey dt s emp a = true)
    (hact : ∀ a ∈ rows, assignKey dt s emp a = true → a.active = true) :
    upsertAssignment rows dt dow s emp = rows := by
  rw [upsertAssignment, if_pos (List.any_eq_true.mpr hex)]
  apply map_id_of_mem
  intro a ha
  by_cases hk : assignKey dt s emp a = true
  · rw [if_pos hk]
    exact active_update_self a true (hact a ha hk)
  · rw [if_neg hk]

theorem upsertAll_nil (rows : List AssignmentRow) (dt : Date) (dow : Nat) (s : String) :
    upsertAll rows dt dow s [] = rows := rfl

theorem upsertAll_cons (rows : List AssignmentRow) (dt : Date) (dow : Nat) (s e : String)
    (l : List String) :
    upsertAll rows dt dow s (e :: l) = upsertAll (upsertAssignment rows dt dow s e) dt dow s l :=
  rfl

theorem upsertAll_preserves_key_active (dt : Date) (dow : Nat) (s e2 : String)
    (l : List String) :
    ∀ rows : List AssignmentRow,
      (∀ a ∈ rows, assignKey dt s e2 a = true → a.active = true) →
      ∀ a ∈ upsertAll rows dt dow s l, assignKey dt s e2 a = true → a.active = true := by
  induction l with
  | nil => exact fun rows h => h
  | cons e l ih =>
      intro rows h
      rw [upsertAll_cons]
      exact ih _ (upsert_preserves_key_active rows dt dow s e e2 h)

theorem upsertAll_preserves_key_exists (dt : Date) (dow : Nat) (s e2 : String)
    (l : List String) :
    ∀ rows : List AssignmentRow,
      (∃ a ∈ rows, assignKey dt s e2 a = true) →
      ∃ a ∈ upsertAll rows dt dow s l, assignKey dt s e2 a = true := by
  induction l with
  | nil => exact fun rows h => h
  | cons e l ih =>
      intro rows h
      rw [upsertAll_cons]
      exact ih _ (upsert_preserves_key_exists rows dt dow s e e2 h)

theorem upsertAll_key_established (dt : Date) (dow : Nat) (s : String) (l : List String) :
    ∀ rows : List AssignmentRow, ∀ e2 ∈ l,
      (∃ a ∈ upsertAll rows dt dow s l, assignKey dt s e2 a = true) ∧
      (∀ a ∈ upsertAll rows dt dow s l, assignKey dt s e2 a = true → a.active = true) := by
  induction l with
  | nil =>
      intro rows e2 h
      cases h
  | cons e l ih =>
      intro rows e2 he2
      rw [upsertAll_cons]
      rcases List.mem_cons.mp he2 with rfl | hmem
      · constructor
        · exact upsertAll_preserves_key_exists dt dow s e2 l _ (upsert_key_exists rows dt dow s e2)
        · exact upsertAll_preserves_key_active dt dow s e2 l _ (upsert_key_active rows dt dow s e2)
      · exact ih _ e2 hmem

theorem upsertAll_origin (dt : Date) (dow : Nat) (s : String) (l : List String) :
    ∀ rows : List AssignmentRow, ∀ a ∈ upsertAll rows dt dow s l,
      (∃ b ∈ rows, sameKeyFields a b) ∨
        (a.work_date = dt ∧ a.shift_type_id = s ∧ a.employee_id ∈ l) := by
  induction l with
  | nil =>
      intro rows a ha
      left
      exact ⟨a, ha, sameKeyFields_refl a⟩
  | cons e l ih =>
      intro rows a ha
      rw [upsertAll_cons] at ha
      rcases ih _ a ha with ⟨b, hb, hf⟩ | ⟨h1, h2, h3⟩
      · rcases upsert_origin rows dt dow s e b hb with ⟨c, hcmem, hf2⟩ | ⟨h1, h2, h3⟩
        · left
          exact ⟨c, hcmem, sameKeyFields_trans hf hf2⟩
        · right
          refine ⟨hf.1.trans h1, hf.2.2.1.trans h2, ?_⟩
          rw [hf.2.2.2, h3]
          exact List.mem_cons_self e l
      · right
        exact ⟨h1, h2, List.mem_cons_of_mem e h3⟩

theorem upsertAll_frame (dt : Date) (dow : Nat) (s : String) (l : List String) :
    ∀ rows : List AssignmentRow, ∀ b ∈ rows,
      ∃ a ∈ upsertAll rows dt dow s l, sameKeyFields a b := by
  induction l with
  | nil =>
      intro rows b hb
      exact ⟨b, hb, sameKeyFields_refl b⟩
  | cons e l ih =>
      intro rows b hb
      obtain ⟨c, hc, hf⟩ := upsert_frame rows dt dow s e b hb
      obtain ⟨a, ha, hf2⟩ := ih _ c hc
      rw [upsertAll_cons]
      exact ⟨a, ha, sameKeyFields_trans hf2 hf⟩

theorem upsertAll_eq_self (dt : Date) (dow : Nat) (s : String) (l : List String) :
    ∀ rows : List AssignmentRow,
      (∀ e ∈ l, (∃ a ∈ rows, assignKey dt s e a = true) ∧
        (∀ a ∈ rows, assignKey dt s e a = true → a.active = true)) →
      upsertAll rows dt dow s l = rows := by
  induction l with
  | nil => exact fun rows _ => rfl
  | cons e l ih =>
      intro rows h
      rw [upsertAll_cons,
        upsert_eq_self rows dt dow s e (h e (List.mem_cons_self e l)).1
          (h e (List.mem_cons_self e l)).2]
      exact ih rows fun e2 he2 => h e2 (List.mem_cons_of_mem e he2)

theorem deactivate_preserves_key_exists (rows : List AssignmentRow) (dt : Date) (s : String)
    (tds : List String) (e : String) (h : ∃ a ∈ rows, assignKey dt s e a = true) :
    ∃ a ∈ deactivateMissing rows dt s tds, assignKey dt s e a = true := by
  obtain ⟨b, hb, hk⟩ := h
  rw [deactivateMissing]
  by_cases he : tds.isEmpty = true
  · rw [if_pos he]
    exact ⟨b, hb, hk⟩
  · rw [if_neg he]
    refine ⟨_, List.mem_map_of_mem _ hb, ?_⟩
    by_cases hc : (slotKey dt s b && tds.contains b.employee_id) = true
    · rw [if_pos hc, assignKey_active_update]
      exact hk
    · rw [if_neg hc]
      exact hk

theorem deactivate_preserves_key_active (rows : List AssignmentRow) (dt : Date) (s : String)
    (tds : List String) (e : String) (hnot : tds.contains e = false)
    (h : ∀ a ∈ rows, assignKey dt s e a = true → a.active = true) :
    ∀ a ∈ deactivateMissing rows dt s tds, assignKey dt s e a = true → a.active = true := by
  intro a ha hk
  rw [deactivateMissing] at ha
  by_cases he : tds.isEmpty = true
  · rw [if_pos he] at ha
    exact h a ha hk
  · rw [if_neg he] at ha
    obtain ⟨b, hb, hfb⟩ := List.mem_map.mp ha
    by_cases hc : (slotKey dt s b && tds.contains b.employee_id) = true
    · exfalso
      rw [if_pos hc] at hfb
      have hae : a.employee_id = e := ((assignKey_eq_true dt s e a).mp hk).2.2
      have habe : a.employee_id = b.employee_id := by
        rw [← hfb]
      rw [Bool.and_eq_true] at hc
      have : tds.contains e = true := by
        rw [← hae, habe]
        exact hc.2
      rw [this] at hnot
      cases hnot
    · rw [if_neg hc] at hfb
      subst hfb
      exact h _ hb hk

theorem deactivate_frame (rows : List AssignmentRow) (dt : Date) (s : String)
    (tds : List String) :
    ∀ b ∈ rows, ∃ a ∈ deactivateMissing rows dt s tds, sameKeyFields a b := by
  intro b hb
  rw [deactivateMissing]
  by_cases he : tds.isEmpty = true
  · rw [if_pos he]
    exact ⟨b, hb, sameKeyFields_refl b⟩
  · rw [if_neg he]
    refine ⟨_, List.mem_map_of_mem _ hb, ?_⟩
    by_cases hc : (slotKey dt s b && tds.contains b.employee_id) = true
    · rw [if_pos hc]
      exact ⟨rfl, rfl, rfl, rfl⟩
    · rw [if_neg hc]
      exact sameKeyFields_refl b

theorem upsertAll_slot_mem_existing (rows0 : List AssignmentRow) (dt : Date) (dow : Nat)
    (s : String) (X : List String) :
    ∀ a ∈ upsertAll rows0 dt dow s X, slotKey dt s a = true → a.employee_id ∉ X →
      a.employee_id ∈ (existingIds rows0 dt s).filter fun e => !X.contains e := by
  intro a ha hslot hnot
  rcases upsertAll_origin dt dow s X rows0 a ha with ⟨b, hb, hf⟩ | ⟨-, -, hmem⟩
  · have hslotb : slotKey dt s b = true := by
      rw [slotKey, ← hf.1, ← hf.2.2.1]
      exact hslot
    rw [List.mem_filter]
    constructor
    · rw [existingIds, hf.2.2.2]
      exact List.mem_map_of_mem _ (List.mem_filter.mpr ⟨hb, hslotb⟩)
    · rw [contains_eq_false_of_not_mem hnot]
      rfl
  · exact absurd hmem hnot

theorem apply_inactive_of_not_selected (db : DB) (dt : Date) (dow : Nat) (s : String)
    (X : List String) :
    ∀ a ∈ (apply_assignments db dt dow s X).assignments,
      slotKey dt s a = true → a.employee_id ∉ X → a.active = false := by
  intro a ha hslot hnot
  have ha' : a ∈ deactivateMissing (upsertAll db.assignments dt dow s X) dt s
      ((existingIds db.assignments dt s).filter fun e => !X.contains e) := ha
  rw [deactivateMissing] at ha'
  by_cases he : ((existingIds db.assignments dt s).filter fun e => !X.contains e).isEmpty = true
  · rw [if_pos he] at ha'
    have hmem := upsertAll_slot_mem_existing db.assignments dt dow s X a ha' hslot hnot
    rw [List.isEmpty_iff] at he
    rw [he] at hmem
    exact absurd hmem (List.not_mem_nil _)
  · rw [if_neg he] at ha'
    obtain ⟨b, hb, hfb⟩ := List.mem_map.mp ha'
    by_cases hc : (slotKey dt s b &&
        ((existingIds db.assignments dt s).filter
          fun e => !X.contains e).contains b.employee_id) = true
    · rw [if_pos hc] at hfb
      rw [← hfb]
    · rw [if_neg hc] at hfb
      subst hfb
      have hmem := upsertAll_slot_mem_existing db.assignments dt dow s X b hb hslot hnot
      refine absurd ?_ hc
      rw [Bool.and_eq_true]
      exact ⟨hslot, contains_eq_true_of_mem hmem⟩

theorem apply_active_of_selected (db : DB) (dt : Date) (dow : Nat) (s : String)
    (X : List String) :
    ∀ e ∈ X,
      (∃ a ∈ (apply_assignments db dt dow s X).assignments, assignKey dt s e a = true) ∧
      (∀ a ∈ (apply_assignments db dt dow s X).assignments, assignKey dt s e a = true →
        a.active = true) := by
  intro e he
  have h1 := upsertAll_key_established dt dow s X db.assignments e he
  have hnot :
      ((existingIds db.assignments dt s).filter fun x => !X.contains x).contains e = false := by
    apply contains_eq_false_of_not_mem
    intro hmem
    have h2 : (!X.contains e) = true := (List.mem_filter.mp hmem).2
    rw [contains_eq_true_of_mem he] at h2
    cases h2
  exact ⟨deactivate_preserves_key_exists _ dt s _ e h1.1,
    deactivate_preserves_key_active _ dt s _ e hnot h1.2⟩

/-- C4: `apply_assignments` is idempotent — a second reconciliation with the
same desired set leaves the whole store (in particular every assignment row
of the slot) exactly as one call does — and after one call the employees with
an active row for the slot are exactly the desired set. -/
theorem apply_assignments_idempotent (db : DB) (dt : Date) (dow : Nat) (s : String)
    (X : List String) :
    apply_assignments (apply_assignments db dt dow s X) dt dow s X =
      apply_assignments db dt dow s X ∧
    ∀ emp : String,
      (∃ a ∈ (apply_assignments db dt dow s X).assignments,
        slotKey dt s a = true ∧ a.active = true ∧ a.employee_id = emp) ↔ emp ∈ X := by
  have hP1 := apply_active_of_selected db dt dow s X
  have hP2 := apply_inactive_of_not_selected db dt dow s X
  constructor
  · have hall : upsertAll (apply_assignments db dt dow s X).assignments dt dow s X =
        (apply_assignments db dt dow s X).assignments :=
      upsertAll_eq_self dt dow s X _ hP1
    have hdeact : deactivateMissing (apply_assignments db dt dow s X).assignments dt s
        ((existingIds (apply_assignments db dt dow s X).assignments dt s).filter
          fun e => !X.contains e) = (apply_assignments db dt dow s X).assignments := by
      rw [deactivateMissing]
      by_cases he : ((existingIds (apply_assignments db dt dow s X).assignments dt s).filter
          fun e => !X.contains e).isEmpty = true
      · rw [if_pos he]
      · rw [if_neg he]
        apply map_id_of_mem
        intro a ha
        by_cases hc : (slotKey dt s a &&
            ((existingIds (apply_assignments db dt dow s X).assignments dt s).filter
              fun e => !X.contains e).contains a.employee_id) = true
        · rw [if_pos hc]
          rw [Bool.and_eq_true] at hc
          have hmem := mem_of_contains_eq_true hc.2
          have hnotX : a.employee_id ∉ X := by
            have h2 : (!X.contains a.employee_id) = true := (List.mem_filter.mp hmem).2
            intro hx
            rw [contains_eq_true_of_mem hx] at h2
            cases h2
          exact active_update_self a false (hP2 a ha hc.1 hnotX)
        · rw [if_neg hc]
    show { (apply_assignments db dt dow s X) with assignments :=
        (deactivateMissing
          (upsertAll (apply_assignments db dt dow s X).assignments dt dow s X) dt s
          ((existingIds (apply_assignments db dt dow s X).assignments dt s).filter
            fun e => !X.contains e)) } = apply_assignments db dt dow s X
    rw [hall, hdeact]
  · intro emp
    constructor
    · rintro ⟨a, ha, hslot, hact, hemp⟩
      by_contra hnotX
      have hfalse := hP2 a ha hslot (by rw [hemp]; exact hnotX)
      rw [hact] at hfalse
      cases hfalse
    · intro hX
      obtain ⟨a, ha, hk⟩ := (hP1 emp hX).1
      have hprops := (assignKey_eq_true dt s emp a).mp hk
      exact ⟨a, ha, (slotKey_eq_true dt s a).mpr ⟨hprops.1, hprops.2.1⟩,
        (hP1 emp hX).2 a ha hk, hprops.2.2⟩

/-- C5: `apply_assignments` never deletes a row — every stored assignment row
keeps a row with the same date, weekday, shift and employee (only `active`
may change); concretely, reconciling `dbC5`'s slot to {A, B} and then to ∅
leaves both rows stored, `active=false`, with the row count unchanged. -/
theorem apply_assignments_never_deletes :
    (∀ (db : DB) (dt : Date) (dow : Nat) (s : String) (X : List String),
      ∀ b ∈ db.assignments,
        ∃ a ∈ (apply_assignments db dt dow s X).assignments, sameKeyFields a b) ∧
    (apply_assignments (apply_assignments dbC5 ⟨2024, 6, 3⟩ 1 "sh1" ["A", "B"])
        ⟨2024, 6, 3⟩ 1 "sh1" []).assignments =
      [⟨⟨2024, 6, 3⟩, 1, "sh1", "A", false⟩, ⟨⟨2024, 6, 3⟩, 1, "sh1", "B", false⟩] ∧
    (apply_assignments (apply_assignments dbC5 ⟨2024, 6, 3⟩ 1 "sh1" ["A", "B"])
        ⟨2024, 6, 3⟩ 1 "sh1" []).assignments.length =
      (apply_assignments dbC5 ⟨2024, 6, 3⟩ 1 "sh1" ["A", "B"]).assignments.length := by
  refine ⟨?_, by decide, by decide⟩
  intro db dt dow s X b hb
  obtain ⟨c, hc, hf1⟩ := upsertAll_frame dt dow s X db.assignments b hb
  obtain ⟨a, ha, hf2⟩ :=
    deactivate_frame (upsertAll db.assignments dt dow s X) dt s
      ((existingIds db.assignments dt s).filter fun e => !X.contains e) c hc
  exact ⟨a, ha, sameKeyFields_trans hf2 hf1⟩

/-- Witness for C5: the stored row of `dbC5w` survives a reconciliation of
its slot to the empty desired set. -/
theorem apply_assignments_never_deletes_witness :
    ∃ a ∈ (apply_assignments dbC5w ⟨2024, 6, 3⟩ 1 "sh1" []).assignments,
      sameKeyFields a ⟨⟨2024, 6, 3⟩, 1, "sh1", "A", true⟩ :=
  apply_assignments_never_deletes.1 dbC5w ⟨2024, 6, 3⟩ 1 "sh1" []
    ⟨⟨2024, 6, 3⟩, 1, "sh1", "A", true⟩ (by decide)

end Farmacia
